import Mathlib

/-!
Verification of `id-watermark` (denysvitali/id-watermark).

Shallow embedding of the watermarking core of the repository:

* `pkg/watermark/watermark.go` — config validation (`ValidateConfig`),
  the renderer (`Processor.applyWatermark`), the batch coordinator
  (`BatchProcessor.ProcessDirectory`, `processFiles`, `worker`,
  `findImageFiles`).

Modelling conventions:

* Go `float64` length arithmetic (`vg.Length`) is modelled with exact
  rationals `ℚ`; the claims under study are structural (loop bounds,
  strides, tiling positions) and do not depend on rounding.
* External collaborators (the `vgimg` raster canvas, font metrics,
  the filesystem, image codecs) are abstracted as explicit environment
  parameters; everything the repository's own code computes is embedded.
* Fallible Go functions returning `error` become `Except String _`;
  nillable Go pointers become `Option _`.
-/

/-! ## Data model (`Config`, `pkg/watermark/watermark.go` lines 25-37) -/
/-- An opaque, pre-loaded font handle (`*opentype.Font`); the core never
inspects it, so it is a bare tag. A nil Go pointer is `Option.none`. -/
structure FontHandle where
  tag : Nat
deriving DecidableEq, Repr

/-- Model of `color.RGBA`. -/
structure RGBA where
  r : Fin 256
  g : Fin 256
  b : Fin 256
  a : Fin 256
deriving DecidableEq, Repr

/-- The date part of a `time.Time`; only `Format("2006-01-02")` is used by
the renderer, so year/month/day suffice. -/
structure GoTime where
  year : Nat
  month : Nat
  day : Nat
deriving DecidableEq, Repr

/-- Structure `watermark.Config` (watermark.go lines 25-37). -/
structure Config where
  companyName : String
  timestamp : GoTime
  fontSize : ℚ
  opacity : Fin 256
  angle : ℚ
  font : Option FontHandle
  textSpacing : ℚ
  lineSpacing : ℚ
  quality : ℤ
  watermarkColor : RGBA
deriving DecidableEq, Repr

/-! ## `strings.TrimSpace` (Go standard library, used by `ValidateConfig`) -/
/-- Go `unicode.IsSpace` restricted to the Latin-1 range, which is the set Go's
`strings.TrimSpace` strips for ASCII/Latin-1 text: space, tab, newline,
vertical tab, form feed, carriage return, NEL, NBSP. -/
def goIsSpace (c : Char) : Bool :=
  c = ' ' || c = '\t' || c = '\n' || c = '\x0b' || c = '\x0c' || c = '\r' ||
  c = '\x85' || c = '\xa0'

/-- Go `strings.TrimSpace`: drop leading and trailing white space. -/
def goTrimSpace (s : String) : String :=
  String.mk (((s.data.dropWhile goIsSpace).reverse.dropWhile goIsSpace).reverse)

/-! ## `ValidateConfig` (watermark.go lines 193-224) -/
/-- Function `watermark.ValidateConfig` (watermark.go lines 193-224).  The Go
function takes a possibly-nil `*Config`; the checks are performed in source
order and the first failing check's error is returned. -/
def validateConfig : Option Config → Except String Unit
  | none => .error "config cannot be nil"
  | some c =>
    if goTrimSpace c.companyName = "" then
      .error "company name cannot be empty"
    else if c.fontSize < 10 ∨ c.fontSize > 200 then
      .error "font size must be between 10 and 200"
    else if c.textSpacing < 5 ∨ c.textSpacing > 200 then
      .error "text spacing must be between 5 and 200"
    else if c.lineSpacing < 5 ∨ c.lineSpacing > 200 then
      .error "line spacing must be between 5 and 200"
    else if c.quality < 1 ∨ c.quality > 100 then
      .error "quality must be between 1 and 100"
    else if c.font = none then
      .error "font cannot be nil"
    else
      .ok ()

/-- The conjunction of all range checks of `ValidateConfig`, as a predicate. -/
def ValidConfig (c : Config) : Prop :=
  goTrimSpace c.companyName ≠ "" ∧
  10 ≤ c.fontSize ∧ c.fontSize ≤ 200 ∧
  5 ≤ c.textSpacing ∧ c.textSpacing ≤ 200 ∧
  5 ≤ c.lineSpacing ∧ c.lineSpacing ≤ 200 ∧
  1 ≤ c.quality ∧ c.quality ≤ 100 ∧
  c.font ≠ none

instance (c : Config) : Decidable (ValidConfig c) := by
  unfold ValidConfig; infer_instance

/-- A concrete configuration used by the closed witnesses below. -/
def cfgDemo : Config where
  companyName := "ACME Corp"
  timestamp := ⟨2024, 1, 15⟩
  fontSize := 40
  opacity := ⟨40, by decide⟩
  angle := 34
  font := some ⟨0⟩
  textSpacing := 30
  lineSpacing := 30
  quality := 95
  watermarkColor := ⟨⟨150, by decide⟩, ⟨150, by decide⟩, ⟨150, by decide⟩, ⟨40, by decide⟩⟩

/-! ## The Go counting loop `for v := start; v < stop; v += step`

`applyWatermark` (watermark.go lines 162-168) runs two nested loops of this
shape over `vg.Length` values (modelled as `ℚ`).  `whileLoopRun` is the
operational loop with explicit fuel; `loopValues` is its closed form, valid
whenever the stride is positive. -/
/-- Operational model of `for v := start; v < stop; v += step { visit v }`,
cut off after `fuel` iterations. -/
def whileLoopRun : ℕ → ℚ → ℚ → ℚ → List ℚ
  | 0, _, _, _ => []
  | fuel + 1, cur, stop, step =>
    if cur < stop then cur :: whileLoopRun fuel (cur + step) stop step else []

/-- Number of iterations of the loop when the stride is positive (junk value
`0` otherwise; the Go loop would not terminate then). -/
def loopCount (start stop step : ℚ) : ℕ :=
  if 0 < step then (⌈(stop - start) / step⌉).toNat else 0

/-- Closed form of the values visited by the loop (stride positive). -/
def loopValues (start stop step : ℚ) : List ℚ :=
  (List.range (loopCount start stop step)).map
    (fun k : ℕ => start + (k : ℚ) * step)

/-- The Go loop stops changing once it has enough fuel: operational
termination of `for v := start; v < stop; v += step`. -/
def TerminatesFrom (start stop step : ℚ) : Prop :=
  ∃ fuel : ℕ, ∀ f : ℕ, fuel ≤ f →
    whileLoopRun f start stop step = whileLoopRun fuel start stop step

/-! ## Watermark text (watermark.go lines 151-154)

`fmt.Sprintf("%s - %s", companyName, timestamp.Format("2006-01-02"))`. -/
/-- Two-digit zero padding, as Go layout `01`/`02` produces. -/
def pad2 (n : ℕ) : String :=
  if n < 10 then "0" ++ toString n else toString n

/-- Four-digit zero padding, as Go layout `2006` produces for a year. -/
def pad4 (n : ℕ) : String :=
  if n < 10 then "000" ++ toString n
  else if n < 100 then "00" ++ toString n
  else if n < 1000 then "0" ++ toString n
  else toString n

/-- Go `time.Time.Format("2006-01-02")`: `YYYY-MM-DD`. -/
def formatGoDate (t : GoTime) : String :=
  pad4 t.year ++ "-" ++ pad2 t.month ++ "-" ++ pad2 t.day

/-- The painted string (watermark.go lines 152-154). -/
def watermarkText (c : Config) : String :=
  c.companyName ++ " - " ++ formatGoDate c.timestamp

/-! ## Tiling geometry (watermark.go lines 121-168)

`vg.Length` values carry points; a pixel count `p` becomes the physical
length `p * vg.Inch / vgimg.DefaultDPI` with `vg.Inch = 72` and
`vgimg.DefaultDPI = 92`.  `diagonal = sqrt(w*w + h*h)` is irrational in
general, so theorems take it as a parameter `d` (constrained by
`d * d = w * w + h * h` where it matters). -/
/-- Constant `vg.Inch` in points. -/
def vgInch : ℚ := 72

/-- Constant `vgimg.DefaultDPI`. -/
def vgimgDefaultDPI : ℚ := 92

/-- Physical length of a pixel count (watermark.go lines 123-124). -/
def physLen (pixels : ℤ) : ℚ := (pixels : ℚ) * vgInch / vgimgDefaultDPI

/-- Vertical stride of the row loop: `lineHeight + yDistance`
(watermark.go lines 157, 160, 163), i.e. `fontSize + lineSpacing`. -/
def rowStride (c : Config) : ℚ := c.fontSize + c.lineSpacing

/-- Horizontal stride of the column loop: `textWidth + xDistance`
(watermark.go lines 158-159, 165), i.e. `textWidth + textSpacing`. -/
def colStride (c : Config) (textWidth : ℚ) : ℚ := textWidth + c.textSpacing

/-- Start of row number `line`: `-vg.Length(line) * 1.5 * textWidth`
(watermark.go line 165). -/
def rowXStart (textWidth : ℚ) (line : ℕ) : ℚ :=
  -(line : ℚ) * (3 / 2) * textWidth

/-- All `(x, y)` offsets at which `FillString` is called by the nested loops
of `applyWatermark` (watermark.go lines 162-168): rows sweep `offset` from
`-2*diagonal` while `offset < 2*diagonal` in `rowStride` steps, with `line`
incremented before each inner loop; columns sweep `xOffset` from
`rowXStart textWidth line` while `xOffset < w` in `colStride` steps.
Row number `line` of the code is `i + 1` for row index `i` here. -/
def paintedPositions (c : Config) (textWidth d w : ℚ) : List (ℚ × ℚ) :=
  (List.range (loopCount (-2 * d) (2 * d) (rowStride c))).flatMap
    (fun i =>
      (loopValues (rowXStart textWidth (i + 1)) w (colStride c textWidth)).map
        (fun x => (x, -2 * d + (i : ℚ) * rowStride c)))

/-- The tiling as claim C2 words it: identical rows, row starts and strides,
but each row tiles left-to-right up to the width of the canvas — the canvas
is the `diagonal × diagonal` square of watermark.go line 128 — where the
code's guard (line 165) compares `xOffset` against the image width `w`. -/
def claimTiling (c : Config) (textWidth d : ℚ) : List (ℚ × ℚ) :=
  (List.range (loopCount (-2 * d) (2 * d) (rowStride c))).flatMap
    (fun i =>
      (loopValues (rowXStart textWidth (i + 1)) d (colStride c textWidth)).map
        (fun x => (x, -2 * d + (i : ℚ) * rowStride c)))

/-! ## Images and the renderer (`applyWatermark`, watermark.go lines 121-191)

A Go `image.Image` is its bounds rectangle plus a total pixel function.
The external `vgimg` canvas pipeline (`vgimg.New` … `PngCanvas.WriteTo`
followed by `image.Decode`, lines 128-180) is abstracted as an environment
`RenderEnv.flatten` from the full description of what the code drew — canvas
side, centered image rectangle, colour, font, text and the tiled positions —
to the flattened raster (`none` models an `image.Decode` failure); the font
metric `fontFace.Width` (line 158) is `RenderEnv.textWidth`.  Everything
else — the watermark string, every loop bound and painted position, the crop
arithmetic — is computed by the embedding exactly as the source does. -/
/-- An `image.Rectangle`. -/
structure GoRect where
  minX : ℤ
  minY : ℤ
  maxX : ℤ
  maxY : ℤ
deriving DecidableEq, Repr

/-- An `image.Image`: bounds plus pixel lookup (abstract pixel values). -/
structure GoImage where
  bounds : GoRect
  pix : ℤ → ℤ → ℕ

/-- Go's conversion of a float to `int` truncates toward zero. -/
def goTruncInt (q : ℚ) : ℤ := if q < 0 then ⌈q⌉ else ⌊q⌋

/-- Everything `applyWatermark` draws on the canvas before flattening. -/
structure CanvasDesc where
  side : ℚ
  imgRectMinX : ℚ
  imgRectMinY : ℚ
  imgRectMaxX : ℚ
  imgRectMaxY : ℚ
  srcImage : GoImage
  color : RGBA
  font : Option FontHandle
  fontSize : ℚ
  text : String
  positions : List (ℚ × ℚ)

/-- The external collaborators used by `applyWatermark`. -/
structure RenderEnv where
  textWidth : String → ℚ
  flatten : CanvasDesc → Option GoImage

/-- What `applyWatermark` draws before flattening (watermark.go lines
122-168): the square `diagonal × diagonal` canvas, the source image centered
in it, the watermark colour, font and text, and every tiled `FillString`
position.  `w`/`h` are the physical lengths of `bounds.Max.X`/`bounds.Max.Y`
(lines 123-124; the code uses `Max`, not the width). -/
def canvasDescOf (env : RenderEnv) (c : Config) (d : ℚ) (img : GoImage) :
    CanvasDesc :=
  let w : ℚ := physLen img.bounds.maxX
  let h : ℚ := physLen img.bounds.maxY
  let text := watermarkText c
  { side := d
    imgRectMinX := d / 2 - w / 2
    imgRectMinY := d / 2 - h / 2
    imgRectMaxX := d / 2 + w / 2
    imgRectMaxY := d / 2 + h / 2
    srcImage := img
    color := c.watermarkColor
    font := c.font
    fontSize := c.fontSize
    text := text
    positions := paintedPositions c (env.textWidth text) d w }

/-- The final crop (watermark.go lines 182-188): `ctp` truncates
`diagonal * DefaultDPI / Inch / 2` to `int`; `cropBounds.Min` is
`(ctp - size.X/2, ctp - size.Y/2)` with Go's truncating integer division;
the result is a fresh image allocated with the *input* bounds and
`draw.Draw(result, bounds, processedImg, cropBounds.Min, draw.Src)` maps
destination `bounds.Min` to source `cropBounds.Min`. -/
def cropFrom (b : GoRect) (d : ℚ) (processed : GoImage) : GoImage :=
  let ctp : ℤ := goTruncInt (d * vgimgDefaultDPI / vgInch / 2)
  let cropMinX : ℤ := ctp - Int.tdiv (b.maxX - b.minX) 2
  let cropMinY : ℤ := ctp - Int.tdiv (b.maxY - b.minY) 2
  { bounds := b
    pix := fun x y =>
      processed.pix (x - b.minX + cropMinX) (y - b.minY + cropMinY) }

/-- Method `Processor.applyWatermark` (watermark.go lines 121-191).  `d` stands for
`diagonal = math.Sqrt(w*w + h*h)` (line 125), which is irrational in
general; theorems constrain it where needed. -/
def applyWatermark (env : RenderEnv) (c : Config) (d : ℚ) (img : GoImage) :
    Except String GoImage :=
  match env.flatten (canvasDescOf env c d img) with
  | none => .error "decoding processed image"
  | some processed => .ok (cropFrom img.bounds d processed)

/-- Method `Processor.ProcessImage` (watermark.go lines 81-84) just delegates. -/
def processImage (env : RenderEnv) (c : Config) (d : ℚ) (img : GoImage) :
    Except String GoImage :=
  applyWatermark env c d img

/-- A 690 × 920 pixel input image (so `w = 540`, `h = 720`, `d = 900`). -/
def imgDemo : GoImage := { bounds := ⟨0, 0, 690, 920⟩, pix := fun _ _ => 0 }

/-- A concrete environment: constant font metric, total flattener. -/
def envDemo : RenderEnv :=
  { textWidth := fun _ => 100
    flatten := fun dsc => some { bounds := ⟨0, 0, 1125, 1125⟩
                                 pix := fun _ _ => dsc.positions.length } }

/-- Variant of `cfgDemo` with different quality, opacity and angle — fields the
renderer never reads. -/
def cfgDemo2 : Config :=
  { cfgDemo with quality := 80, opacity := ⟨200, by decide⟩, angle := 0 }

/-! ## Batch coordinator (watermark.go lines 237-446)

The filesystem and the per-file pipeline are effects, abstracted as
per-path outcomes fixed for the run (`BatchEnv`, `DirEnv`).  Workers
interleave nondeterministically, so the only run-dependent datum is the
arrival order of the per-job results at the collection loop; theorems
quantify over every permutation of the canonical job-result list. -/
/-- Structure `BatchError` (watermark.go lines 323-327).  The Go `Error` field has
interface type `error`, hence `Option String`; the collection loop only
ever stores non-nil errors (line 387). -/
structure BatchError where
  filePath : String
  error : Option String
deriving DecidableEq, Repr

/-- Structure `BatchResult` (watermark.go lines 315-321). -/
structure BatchResult where
  totalCount : ℕ
  successCount : ℕ
  errorCount : ℕ
  errors : List BatchError
deriving DecidableEq, Repr

/-- Structure `jobResult` (watermark.go lines 335-339). -/
structure JobResult where
  inputPath : String
  err : Option String
deriving DecidableEq, Repr

/-- Per-file effects of one batch run: whether `os.MkdirAll` for the file's
output subdirectory succeeds (line 362), and the `Processor.ProcessFile`
outcome (line 408; `none` = success, `some e` = decode/render/encode
error `e`). -/
structure BatchEnv where
  subMkdirOk : String → Bool
  processResult : String → Option String

/-- The job-sending loop (watermark.go lines 354-371): a file whose output
subdirectory cannot be created is skipped (`continue`, line 364); the rest
are enqueued in file order. -/
def enqueuedFiles (env : BatchEnv) (imageFiles : List String) : List String :=
  imageFiles.filter (fun f => env.subMkdirOk f)

/-- Method `worker` (watermark.go lines 404-414): each job yields exactly one
`jobResult` with the job's input path and the `ProcessFile` error. -/
def runJob (env : BatchEnv) (f : String) : JobResult :=
  { inputPath := f, err := env.processResult f }

/-- The canonical list of job results, one per enqueued job. -/
def jobResultsOf (env : BatchEnv) (imageFiles : List String) :
    List JobResult :=
  (enqueuedFiles env imageFiles).map (runJob env)

/-- The collection loop (watermark.go lines 386-398): a result with non-nil
error bumps `ErrorCount` and appends `BatchError{FilePath, Error}`; a nil
one bumps `SuccessCount`. -/
def collectResults (acc : BatchResult) : List JobResult → BatchResult
  | [] => acc
  | jr :: rest =>
    match jr.err with
    | some _ =>
      collectResults
        { acc with
          errorCount := acc.errorCount + 1
          errors := acc.errors ++ [{ filePath := jr.inputPath
                                     error := jr.err }] } rest
    | none =>
      collectResults { acc with successCount := acc.successCount + 1 } rest

/-- The accumulator `processFiles` starts from (watermark.go lines
381-384): `TotalCount` is the number of discovered files, `Errors` empty. -/
def initialResult (imageFiles : List String) : BatchResult :=
  { totalCount := imageFiles.length
    successCount := 0
    errorCount := 0
    errors := [] }

/-- Method `BatchProcessor.processFiles` (watermark.go lines 342-401), with
`order` the arrival order of the worker results. -/
def processFiles (imageFiles : List String) (order : List JobResult) :
    BatchResult :=
  collectResults (initialResult imageFiles) order

/-- Directory-level effects of `ProcessDirectory`: the outcome of
`findImageFiles` (line 281; `.error` = enumeration failure) and of
`os.MkdirAll(outputDir, 0755)` (line 299), plus the per-file effects. -/
structure DirEnv where
  listing : Except String (List String)
  mkdirRootOk : Bool
  fileEnv : BatchEnv

/-- Method `BatchProcessor.ProcessDirectory` (watermark.go lines 279-313), in
source order: enumerate, fail on zero files, create the output root, then
process.  The second component records whether the output root directory
was created. -/
def processDirectory (env : DirEnv) (order : List JobResult) :
    Except String BatchResult × Bool :=
  match env.listing with
  | .error e => (.error ("finding image files: " ++ e), false)
  | .ok imageFiles =>
    if imageFiles.length = 0 then
      (.error "no image files found", false)
    else if env.mkdirRootOk then
      (.ok (processFiles imageFiles order), true)
    else
      (.error "creating output directory", false)

/-- Returns `true` exactly on a top-level (`error`) result of `ProcessDirectory`. -/
def isFailure : Except String BatchResult → Bool
  | .error _ => true
  | .ok _ => false

/-- The two-files-one-corrupt demo batch: `a.jpg`, `b.jpg`, `c.jpg` succeed,
`bad.jpg` fails to decode; all output subdirectories can be created. -/
def filesDemo : List String := ["a.jpg", "b.jpg", "c.jpg", "bad.jpg"]

/-- Per-file effects for the demo batch. -/
def batchEnvDemo : BatchEnv :=
  { subMkdirOk := fun _ => true
    processResult := fun f =>
      if f = "bad.jpg" then some "decoding image: invalid header" else none }

/-- Directory-level effects for the demo batch. -/
def dirEnvDemo : DirEnv :=
  { listing := .ok filesDemo, mkdirRootOk := true, fileEnv := batchEnvDemo }

/-- The canonical worker-result order of the demo batch. -/
def orderDemo : List JobResult := jobResultsOf batchEnvDemo filesDemo

/-- A batch in which the single discovered file's output subdirectory
cannot be created. -/
def dirEnvCex : DirEnv :=
  { listing := .ok ["a.jpg"]
    mkdirRootOk := true
    fileEnv := { subMkdirOk := fun _ => false
                 processResult := fun _ => none } }

/-- A directory whose enumeration finds zero eligible files. -/
def dirEnvZero : DirEnv :=
  { listing := .ok []
    mkdirRootOk := true
    fileEnv := { subMkdirOk := fun _ => true
                 processResult := fun _ => none } }

/-- A batch in which every individual file fails to process. -/
def dirEnvAllFail : DirEnv :=
  { listing := .ok ["x.jpg", "y.jpg"]
    mkdirRootOk := true
    fileEnv := { subMkdirOk := fun _ => true
                 processResult :=
                   fun _ => some "applying watermark: render error" } }

/-- The canonical worker-result order of the all-failing batch. -/
def orderAllFail : List JobResult :=
  jobResultsOf dirEnvAllFail.fileEnv ["x.jpg", "y.jpg"]

/-! ## File discovery (`findImageFiles`, watermark.go lines 417-446)

`filepath.Walk` over a concrete directory tree.  The walk function returns
`filepath.SkipDir` for any directory other than the root when the processor
is non-recursive (lines 426-432), and collects files whose lower-cased
`filepath.Ext` is one of `.jpg`, `.jpeg`, `.png` (lines 434-440). -/
/-- A directory entry: a plain file or a subdirectory with its entries. -/
inductive FsEntry where
  | file (name : String)
  | dir (name : String) (entries : List FsEntry)

/-- The suffix of a character list starting at its last dot, if any. -/
def extSuffix : List Char → Option (List Char)
  | [] => none
  | c :: cs =>
    match extSuffix cs with
    | some r => some r
    | none => if c = '.' then some (c :: cs) else none

/-- Go `filepath.Ext`: the suffix beginning at the final dot (empty when the
name has no dot). -/
def goExt (s : String) : String :=
  match extSuffix s.data with
  | some cs => String.mk cs
  | none => ""

/-- Go `strings.ToLower` for ASCII text (the extensions compared against
are ASCII). -/
def goToLower (s : String) : String :=
  String.mk (s.data.map Char.toLower)

/-- The eligibility test of the walk function (watermark.go lines 434-440):
lower-cased extension among the supported ones. -/
def isSupportedExt (name : String) : Bool :=
  goToLower (goExt name) = ".jpg" || goToLower (goExt name) = ".jpeg" ||
    goToLower (goExt name) = ".png"

/-- Method `findImageFiles` restricted to the walk over the entries of a directory
at path `base` (watermark.go lines 421-443): files are collected when
eligible; a subdirectory is descended into only in recursive mode (otherwise
the walk function returns `filepath.SkipDir`). -/
def findImagesIn (recursive : Bool) (base : String) :
    List FsEntry → List String
  | [] => []
  | .file n :: rest =>
    (if isSupportedExt n then [base ++ "/" ++ n] else []) ++
      findImagesIn recursive base rest
  | .dir n sub :: rest =>
    (if recursive then findImagesIn recursive (base ++ "/" ++ n) sub
     else []) ++
      findImagesIn recursive base rest

/-- Spec-side location predicate: the tree `es` contains, under the chain of
subdirectory names `dirs`, a file named `n`. -/
inductive FileAt : List FsEntry → List String → String → Prop where
  | here {es : List FsEntry} {n : String} :
      FsEntry.file n ∈ es → FileAt es [] n
  | there {es : List FsEntry} {dn : String} {sub : List FsEntry}
      {dirs : List String} {n : String} :
      FsEntry.dir dn sub ∈ es → FileAt sub dirs n →
      FileAt es (dn :: dirs) n

/-- Path of a file reached from `base` through subdirectories `dirs`. -/
def joinPath (base : String) : List String → String → String
  | [], n => base ++ "/" ++ n
  | dn :: rest, n => joinPath (base ++ "/" ++ dn) rest n

lemma validateConfig_ok_iff_valid (oc : Option Config) :
    validateConfig oc = .ok () ↔ ∃ c, oc = some c ∧ ValidConfig c := by
  cases oc with
  | none => simp [validateConfig]
  | some c =>
    simp only [validateConfig, ValidConfig]
    constructor
    · intro h
      refine ⟨c, rfl, ?_⟩
      by_cases h1 : goTrimSpace c.companyName = "" <;> simp [h1] at h
      by_cases h2 : c.fontSize < 10 ∨ c.fontSize > 200 <;> simp [h2] at h
      by_cases h3 : c.textSpacing < 5 ∨ c.textSpacing > 200 <;> simp [h3] at h
      by_cases h4 : c.lineSpacing < 5 ∨ c.lineSpacing > 200 <;> simp [h4] at h
      by_cases h5 : c.quality < 1 ∨ c.quality > 100 <;> simp [h5] at h
      by_cases h6 : c.font = none <;> simp [h6] at h
      push_neg at h2 h3 h4 h5
      exact ⟨h1, h2.1, h2.2, h3.1, h3.2, h4.1, h4.2, h5.1, h5.2, h6⟩
    · rintro ⟨c', hc', h1, h2, h3, h4, h5, h6, h7, h8, h9, h10⟩
      cases Option.some.inj hc'
      rw [if_neg h1, if_neg, if_neg, if_neg, if_neg, if_neg h10] <;>
        push_neg <;> constructor <;> assumption

lemma lt_loopCount_iff {step : ℚ} (h : 0 < step) (start stop : ℚ) (k : ℕ) :
    k < loopCount start stop step ↔ start + k * step < stop := by
  rw [loopCount, if_pos h, Int.lt_toNat, Int.lt_ceil, lt_div_iff₀ h,
    lt_sub_iff_add_lt]
  push_cast
  rw [add_comm]

lemma mem_loopValues {step : ℚ} (h : 0 < step) (start stop x : ℚ) :
    x ∈ loopValues start stop step ↔
      ∃ k : ℕ, x = start + k * step ∧ x < stop := by
  rw [loopValues, List.mem_map]
  constructor
  · rintro ⟨k, hk, rfl⟩
    rw [List.mem_range] at hk
    exact ⟨k, rfl, (lt_loopCount_iff h start stop k).mp hk⟩
  · rintro ⟨k, rfl, hlt⟩
    exact ⟨k, List.mem_range.mpr ((lt_loopCount_iff h start stop k).mpr hlt),
      rfl⟩

lemma loopCount_eq_zero {step : ℚ} (h : 0 < step) {start stop : ℚ}
    (hge : ¬ start < stop) : loopCount start stop step = 0 := by
  rw [loopCount, if_pos h, Int.toNat_eq_zero]
  rw [show (0 : ℤ) = ((0 : ℤ) : ℤ) from rfl, Int.ceil_le]
  push_cast
  apply div_nonpos_of_nonpos_of_nonneg _ h.le
  simpa [sub_nonpos] using not_lt.mp hge

lemma loopCount_step {step : ℚ} (h : 0 < step) {start stop : ℚ}
    (hlt : start < stop) :
    loopCount start stop step = loopCount (start + step) stop step + 1 := by
  have h0 : 0 < loopCount start stop step := by
    rw [lt_loopCount_iff h]
    simpa using hlt
  have e1 : (stop - (start + step)) / step = (stop - start) / step - 1 := by
    field_simp
    ring
  simp only [loopCount, if_pos h] at h0 ⊢
  rw [e1, Int.ceil_sub_one]
  omega

lemma whileLoopRun_stable {step : ℚ} (h : 0 < step) :
    ∀ (fuel : ℕ) (start stop : ℚ), loopCount start stop step ≤ fuel →
      whileLoopRun fuel start stop step = loopValues start stop step := by
  intro fuel
  induction fuel with
  | zero =>
    intro start stop hf
    have hc : loopCount start stop step = 0 := Nat.le_zero.mp hf
    simp [whileLoopRun, loopValues, hc]
  | succ n ih =>
    intro start stop hf
    rw [whileLoopRun]
    by_cases hlt : start < stop
    · have hc := loopCount_step h hlt
      rw [if_pos hlt, ih (start + step) stop (by omega)]
      rw [loopValues, loopValues, hc, List.range_succ_eq_map]
      rw [List.map_cons, List.map_map]
      congr 1
      · simp
      · apply List.map_congr_left
        intro k _
        simp only [Function.comp_apply]
        push_cast
        ring
    · have hc := loopCount_eq_zero h hlt
      rw [if_neg hlt, loopValues, hc]
      simp

lemma terminatesFrom_of_pos {step : ℚ} (h : 0 < step) (start stop : ℚ) :
    TerminatesFrom start stop step := by
  refine ⟨loopCount start stop step, fun f hf => ?_⟩
  rw [whileLoopRun_stable h f start stop hf,
    whileLoopRun_stable h _ start stop le_rfl]

lemma claimTiling_eq (c : Config) (textWidth d : ℚ) :
    claimTiling c textWidth d = paintedPositions c textWidth d d := rfl

lemma mem_paintedPositions {c : Config} {tw d w : ℚ}
    (hrow : 0 < rowStride c) (hcol : 0 < colStride c tw) (x y : ℚ) :
    (x, y) ∈ paintedPositions c tw d w ↔
      ∃ i : ℕ, y = -2 * d + i * rowStride c ∧ y < 2 * d ∧
        ∃ j : ℕ, x = rowXStart tw (i + 1) + j * colStride c tw ∧ x < w := by
  simp only [paintedPositions, List.mem_flatMap, List.mem_range, List.mem_map]
  constructor
  · rintro ⟨i, hi, x', hx', heq⟩
    obtain ⟨hx, hy⟩ := Prod.mk.injEq .. ▸ heq
    subst hx
    refine ⟨i, hy.symm, ?_, ?_⟩
    · rw [← hy]
      have := (lt_loopCount_iff hrow (-2 * d) (2 * d) i).mp hi
      linarith
    · obtain ⟨j, hj, hjw⟩ := (mem_loopValues hcol _ w x').mp hx'
      exact ⟨j, hj, hjw⟩
  · rintro ⟨i, hy, hylt, j, hx, hxw⟩
    refine ⟨i, ?_, ?_⟩
    · rw [lt_loopCount_iff hrow]
      rw [hy] at hylt
      exact hylt
    · exact ⟨x, (mem_loopValues hcol _ w x).mpr ⟨j, hx, hxw⟩, by rw [hy]⟩

lemma rowStride_pos {c : Config} (hv : ValidConfig c) : 0 < rowStride c := by
  obtain ⟨-, h1, -, -, -, h2, -, -, -, -⟩ := hv
  unfold rowStride
  linarith

lemma colStride_pos {c : Config} {tw : ℚ} (hv : ValidConfig c)
    (htw : 0 ≤ tw) : 0 < colStride c tw := by
  obtain ⟨-, -, -, h1, -, -, -, -, -, -⟩ := hv
  unfold colStride
  linarith

/-! ## Claims C2 and C7 -/
/-- Claim C2 (amended): in `applyWatermark` the painted string is
`"{companyName} - {timestamp YYYY-MM-DD}"`; rows are placed at vertical
offsets starting at `-2*diagonal` advancing by `fontSize + lineSpacing`
while the offset is below `2*diagonal`; within the `k`-th row (`k = i+1`
counted from 1) the string is painted at horizontal offsets starting at
`-(k * 1.5 * textWidth)` advancing by `textWidth + textSpacing` — but the
row tiles left-to-right only up to the *image* width `w` (the code's guard
`xOffset < w`, watermark.go line 165), not up to the canvas width
(`diagonal`) as the claim states. -/
theorem applyWatermark_tiling (c : Config) (tw d w : ℚ)
    (hv : validateConfig (some c) = .ok ()) (htw : 0 ≤ tw) :
    watermarkText c = c.companyName ++ " - "
        ++ (pad4 c.timestamp.year ++ "-" ++ pad2 c.timestamp.month ++ "-"
            ++ pad2 c.timestamp.day) ∧
    ∀ x y : ℚ, (x, y) ∈ paintedPositions c tw d w ↔
      ∃ i : ℕ, y = -2 * d + i * (c.fontSize + c.lineSpacing) ∧ y < 2 * d ∧
        ∃ j : ℕ, x = -((i + 1 : ℕ) : ℚ) * (3 / 2) * tw
            + j * (tw + c.textSpacing) ∧ x < w := by
  obtain ⟨c', hc', hvv⟩ := (validateConfig_ok_iff_valid (some c)).mp hv
  cases Option.some.inj hc'
  exact ⟨rfl, fun x y =>
    mem_paintedPositions (rowStride_pos hvv) (colStride_pos hvv htw) x y⟩

/-- Witness for C2: with the demo config, `textWidth = 100`,
`diagonal = 900`, `w = 540` (a 690 × 920 pixel image), the text is
`"ACME Corp - 2024-01-15"` and position `(-150, -1800)` (row 1, column 0)
is painted. -/
theorem applyWatermark_tiling_witness :
    watermarkText cfgDemo = "ACME Corp - 2024-01-15" ∧
    ((-150 : ℚ), (-1800 : ℚ)) ∈ paintedPositions cfgDemo 100 900 540 :=
  ⟨by decide,
    ((applyWatermark_tiling cfgDemo 100 900 540 rfl (by decide)).2
        (-150) (-1800)).mpr
      ⟨0, by norm_num [cfgDemo], by norm_num, 0, by norm_num [cfgDemo],
        by norm_num⟩⟩

/-- Counterexample to C2 as stated: with the demo config, `textWidth = 100`,
`diagonal = 900` and image width `w = 540` (a 690 × 920 pixel image), the
claimed tiling — up to the canvas width — paints `(630, -1800)` (row 1,
column 6), but the code does not: its column guard is `xOffset < w` and
`630 ≥ 540`. -/
theorem applyWatermark_tiling_cex :
    ((630 : ℚ), (-1800 : ℚ)) ∈ claimTiling cfgDemo 100 900 ∧
    ((630 : ℚ), (-1800 : ℚ)) ∉ paintedPositions cfgDemo 100 900 540 := by
  have hv : ValidConfig cfgDemo := by decide
  have hrow : 0 < rowStride cfgDemo := rowStride_pos hv
  have hcol : 0 < colStride cfgDemo 100 := colStride_pos hv (by decide)
  constructor
  · rw [claimTiling_eq]
    refine (mem_paintedPositions hrow hcol 630 (-1800)).mpr
      ⟨0, ?_, by norm_num, 6, ?_, by norm_num⟩
    · norm_num [rowStride, cfgDemo]
    · norm_num [rowXStart, colStride, cfgDemo]
  · intro hmem
    obtain ⟨i, -, -, j, -, hxw⟩ :=
      (mem_paintedPositions hrow hcol 630 (-1800)).mp hmem
    exact absurd hxw (by norm_num)

/-- Claim C7: for a config passing validation and a nonnegative text width,
both strides of the tiling loops are strictly positive, hence both the row
loop and every column loop of `applyWatermark` terminate (the operational
loop stops changing once it has enough fuel), even when `textWidth = 0`. -/
theorem tiling_loops_terminate (c : Config) (tw d w : ℚ)
    (hv : validateConfig (some c) = .ok ()) (htw : 0 ≤ tw) :
    0 < c.fontSize + c.lineSpacing ∧ 0 < tw + c.textSpacing ∧
    TerminatesFrom (-2 * d) (2 * d) (c.fontSize + c.lineSpacing) ∧
    ∀ line : ℕ, TerminatesFrom (-(line : ℚ) * (3 / 2) * tw) w
      (tw + c.textSpacing) := by
  obtain ⟨c', hc', hvv⟩ := (validateConfig_ok_iff_valid (some c)).mp hv
  cases Option.some.inj hc'
  have hrow := rowStride_pos hvv
  have hcol := colStride_pos hvv htw
  exact ⟨hrow, hcol, terminatesFrom_of_pos hrow _ _,
    fun line => terminatesFrom_of_pos hcol _ _⟩

/-- Witness for C7: the demo config, `textWidth = 0` (the degenerate case
the claim singles out), `diagonal = 900`, `w = 540`. -/
theorem tiling_loops_terminate_witness :
    TerminatesFrom (-2 * 900) (2 * 900)
      (cfgDemo.fontSize + cfgDemo.lineSpacing) ∧
    TerminatesFrom (-((3 : ℕ) : ℚ) * (3 / 2) * 0) 540
      ((0 : ℚ) + cfgDemo.textSpacing) :=
  ⟨(tiling_loops_terminate cfgDemo 0 900 540 rfl (by decide)).2.2.1,
   (tiling_loops_terminate cfgDemo 0 900 540 rfl (by decide)).2.2.2 3⟩

/-! ## Claims C6 and C9 -/
/-- Claim C6: whenever `applyWatermark` / `ProcessImage` succeeds on a config
that passes validation, the returned image has exactly the input's bounds
(the result is allocated with `image.NewRGBA(bounds)` of the input,
watermark.go line 187), hence identical pixel dimensions. -/
theorem applyWatermark_preserves_dims (env : RenderEnv) (c : Config) (d : ℚ)
    (img out : GoImage) (hv : validateConfig (some c) = .ok ())
    (h : processImage env c d img = .ok out) :
    out.bounds = img.bounds ∧
    out.bounds.maxX - out.bounds.minX = img.bounds.maxX - img.bounds.minX ∧
    out.bounds.maxY - out.bounds.minY = img.bounds.maxY - img.bounds.minY := by
  unfold processImage applyWatermark at h
  cases hf : env.flatten (canvasDescOf env c d img) <;> rw [hf] at h
  · cases h
  · cases Except.ok.inj h
    exact ⟨rfl, rfl, rfl⟩

/-- Witness for C6: the demo run succeeds and keeps the 690 × 920 bounds. -/
theorem applyWatermark_preserves_dims_witness :
    (processImage envDemo cfgDemo 900 imgDemo).map GoImage.bounds
      = .ok imgDemo.bounds := by
  obtain ⟨out, hout⟩ :
      ∃ out, processImage envDemo cfgDemo 900 imgDemo = .ok out := ⟨_, rfl⟩
  rw [hout, Except.map,
    (applyWatermark_preserves_dims envDemo cfgDemo 900 imgDemo out rfl
      hout).1]

/-- Claim C9: rendering is deterministic — `applyWatermark` is a function of
the input image, the diagonal, the environment (canvas library and font
metrics) and exactly the config fields it reads: company name, timestamp,
font size, font, text spacing, line spacing and watermark colour.  Two
invocations with configs equal on those fields (and the same image,
timestamp included in the config) produce identical output. -/
theorem applyWatermark_deterministic (env : RenderEnv) (c₁ c₂ : Config)
    (d : ℚ) (img : GoImage)
    (h1 : c₁.companyName = c₂.companyName)
    (h2 : c₁.timestamp = c₂.timestamp)
    (h3 : c₁.fontSize = c₂.fontSize)
    (h4 : c₁.font = c₂.font)
    (h5 : c₁.textSpacing = c₂.textSpacing)
    (h6 : c₁.lineSpacing = c₂.lineSpacing)
    (h7 : c₁.watermarkColor = c₂.watermarkColor) :
    applyWatermark env c₁ d img = applyWatermark env c₂ d img := by
  have hdesc : canvasDescOf env c₁ d img = canvasDescOf env c₂ d img := by
    unfold canvasDescOf watermarkText paintedPositions rowStride colStride
      rowXStart loopValues loopCount
    rw [h1, h2, h3, h4, h5, h6, h7]
  unfold applyWatermark
  rw [hdesc]

/-- Witness for C9: two renders with configs equal on every field the
renderer reads give identical output. -/
theorem applyWatermark_deterministic_witness :
    applyWatermark envDemo cfgDemo 900 imgDemo
      = applyWatermark envDemo cfgDemo2 900 imgDemo :=
  applyWatermark_deterministic envDemo cfgDemo cfgDemo2 900 imgDemo
    rfl rfl rfl rfl rfl rfl rfl

lemma collectResults_totalCount (rs : List JobResult) :
    ∀ acc : BatchResult, (collectResults acc rs).totalCount = acc.totalCount := by
  induction rs with
  | nil => intro acc; rfl
  | cons jr rest ih =>
    intro acc
    rw [collectResults]
    cases jr.err <;> simp only [ih]

lemma collectResults_successCount (rs : List JobResult) :
    ∀ acc : BatchResult, (collectResults acc rs).successCount
      = acc.successCount + rs.countP (fun jr => jr.err.isNone) := by
  induction rs with
  | nil => intro acc; simp [collectResults]
  | cons jr rest ih =>
    intro acc
    rw [collectResults, List.countP_cons]
    cases hjr : jr.err <;> simp [ih, hjr] <;> omega

lemma collectResults_errorCount (rs : List JobResult) :
    ∀ acc : BatchResult, (collectResults acc rs).errorCount
      = acc.errorCount + rs.countP (fun jr => jr.err.isSome) := by
  induction rs with
  | nil => intro acc; simp [collectResults]
  | cons jr rest ih =>
    intro acc
    rw [collectResults, List.countP_cons]
    cases hjr : jr.err <;> simp [ih, hjr] <;> omega

lemma collectResults_errors (rs : List JobResult) :
    ∀ acc : BatchResult, (collectResults acc rs).errors
      = acc.errors ++ (rs.filter (fun jr => jr.err.isSome)).map
          (fun jr => { filePath := jr.inputPath, error := jr.err }) := by
  induction rs with
  | nil => intro acc; simp [collectResults]
  | cons jr rest ih =>
    intro acc
    rw [collectResults, List.filter_cons]
    cases hjr : jr.err <;> simp [ih, hjr]

lemma processFiles_totalCount (files : List String) (order : List JobResult) :
    (processFiles files order).totalCount = files.length :=
  collectResults_totalCount order (initialResult files)

lemma processFiles_successCount (files : List String)
    (order : List JobResult) :
    (processFiles files order).successCount
      = order.countP (fun jr => jr.err.isNone) := by
  rw [processFiles, collectResults_successCount]
  simp [initialResult]

lemma processFiles_errorCount (files : List String) (order : List JobResult) :
    (processFiles files order).errorCount
      = order.countP (fun jr => jr.err.isSome) := by
  rw [processFiles, collectResults_errorCount]
  simp [initialResult]

lemma processFiles_errors (files : List String) (order : List JobResult) :
    (processFiles files order).errors
      = (order.filter (fun jr => jr.err.isSome)).map
          (fun jr => { filePath := jr.inputPath, error := jr.err }) := by
  rw [processFiles, collectResults_errors]
  rfl

lemma processDirectory_ok_iff (env : DirEnv) (order : List JobResult)
    (r : BatchResult) :
    (processDirectory env order).1 = .ok r ↔
      ∃ files, env.listing = .ok files ∧ files ≠ [] ∧
        env.mkdirRootOk = true ∧ r = processFiles files order := by
  cases hl : env.listing with
  | error e => simp [processDirectory, hl]
  | ok files =>
    by_cases h0 : files.length = 0
    · have hfe : files = [] := List.length_eq_zero.mp h0
      subst hfe
      simp [processDirectory, hl]
    · have hne : files ≠ [] := fun h => h0 (by simp [h])
      by_cases hm : env.mkdirRootOk
      · simp [processDirectory, hl, h0, hm, hne, eq_comm]
      · simp [processDirectory, hl, h0, hm]

lemma countP_decide_eq_one_of_nodup {α : Type} [DecidableEq α]
    {l : List α} (hnd : l.Nodup) {f : α} (hf : f ∈ l) :
    l.countP (fun g => decide (g = f)) = 1 := by
  induction l with
  | nil => cases hf
  | cons a rest ih =>
    rw [List.countP_cons]
    rcases List.mem_cons.mp hf with rfl | hfr
    · have hnotin : f ∉ rest := (List.nodup_cons.mp hnd).1
      have hzero : rest.countP (fun g => decide (g = f)) = 0 := by
        apply List.countP_eq_zero.mpr
        intro g hg
        have hne : g ≠ f := fun h => hnotin (h ▸ hg)
        simp [hne]
      simp [hzero]
    · have hne : a ≠ f := by
        rintro rfl
        exact (List.nodup_cons.mp hnd).1 hfr
      simp [hne, ih (List.nodup_cons.mp hnd).2 hfr]

lemma countP_decide_and_of_nodup {α : Type} [DecidableEq α]
    {l : List α} (hnd : l.Nodup) {f : α} (hf : f ∈ l) (P : α → Bool) :
    l.countP (fun g => decide (g = f) && P g)
      = if P f then 1 else 0 := by
  induction l with
  | nil => cases hf
  | cons a rest ih =>
    rw [List.countP_cons]
    rcases List.mem_cons.mp hf with rfl | hfr
    · have hnotin : f ∉ rest := (List.nodup_cons.mp hnd).1
      have hzero : rest.countP (fun g => decide (g = f) && P g) = 0 := by
        apply List.countP_eq_zero.mpr
        intro g hg
        have hne : g ≠ f := fun h => hnotin (h ▸ hg)
        simp [hne]
      by_cases hP : P f <;> simp [hzero, hP]
    · have hne : a ≠ f := by
        rintro rfl
        exact (List.nodup_cons.mp hnd).1 hfr
      simp [hne, ih (List.nodup_cons.mp hnd).2 hfr]

/-! ## Claims C1, C3, C4, C10 -/
/-- Claim C1 (amended): for `N ≥ 1` discovered files, a returned `BatchResult`
has `TotalCount = N` always, and `SuccessCount + ErrorCount` equal to the
number of jobs actually enqueued; that number is `N` whenever every file's
output subdirectory is created successfully, but files whose subdirectory
creation fails are skipped (watermark.go line 364) and then
`SuccessCount + ErrorCount < N`. -/
theorem processDirectory_counts (env : DirEnv) (imageFiles : List String)
    (order : List JobResult) (r : BatchResult)
    (hl : env.listing = .ok imageFiles)
    (hperm : order.Perm (jobResultsOf env.fileEnv imageFiles))
    (hr : (processDirectory env order).1 = .ok r) :
    r.totalCount = imageFiles.length ∧
    r.successCount + r.errorCount
      = (enqueuedFiles env.fileEnv imageFiles).length ∧
    ((∀ f ∈ imageFiles, env.fileEnv.subMkdirOk f = true) →
      r.successCount + r.errorCount = imageFiles.length) := by
  obtain ⟨files, hfl, -, -, hrr⟩ := (processDirectory_ok_iff env order r).mp hr
  rw [hl] at hfl
  cases Except.ok.inj hfl
  subst hrr
  have hsum : (processFiles imageFiles order).successCount
      + (processFiles imageFiles order).errorCount
      = (enqueuedFiles env.fileEnv imageFiles).length := by
    rw [processFiles_successCount, processFiles_errorCount]
    have h2 : order.countP (fun jr => jr.err.isSome)
        = order.countP (fun jr => decide (¬ jr.err.isNone = true)) :=
      List.countP_congr (fun jr _ => by cases jjr : jr.err <;> simp [jjr])
    rw [h2, ← List.length_eq_countP_add_countP, hperm.length_eq,
      jobResultsOf, List.length_map]
  refine ⟨processFiles_totalCount imageFiles order, hsum, fun hall => ?_⟩
  rw [hsum, enqueuedFiles, List.filter_eq_self.mpr hall]

/-- Witness for C1: the demo batch (4 files, all subdirectories created)
yields `TotalCount = 4` and `SuccessCount + ErrorCount = 4`. -/
theorem processDirectory_counts_witness :
    (processFiles filesDemo orderDemo).totalCount = 4 ∧
    (processFiles filesDemo orderDemo).successCount
      + (processFiles filesDemo orderDemo).errorCount = 4 :=
  ⟨(processDirectory_counts dirEnvDemo filesDemo orderDemo
      (processFiles filesDemo orderDemo) rfl (List.Perm.refl _) rfl).1,
   (processDirectory_counts dirEnvDemo filesDemo orderDemo
      (processFiles filesDemo orderDemo) rfl (List.Perm.refl _) rfl).2.2
     (by decide)⟩

/-- Counterexample to C1 as stated: one eligible file is discovered
(`N = 1`), `ProcessDirectory` succeeds, but the file is skipped because its
output subdirectory cannot be created, so `SuccessCount + ErrorCount = 0`,
not `N`. -/
theorem processDirectory_counts_cex :
    (processDirectory dirEnvCex
        (jobResultsOf dirEnvCex.fileEnv ["a.jpg"])).1
      = .ok { totalCount := 1, successCount := 0, errorCount := 0
              errors := [] } ∧
    (0 : ℕ) + 0 ≠ 1 :=
  ⟨rfl, by decide⟩

/-- Claim C3: `ProcessDirectory` returns a top-level error exactly when the
input directory cannot be enumerated, or zero eligible files are found, or
the output root directory cannot be created; in every failing case the
output root directory has not been created. -/
theorem processDirectory_error_conditions (env : DirEnv)
    (order : List JobResult) :
    (isFailure (processDirectory env order).1 = true ↔
      (∃ e, env.listing = .error e) ∨ env.listing = .ok [] ∨
        env.mkdirRootOk = false) ∧
    (isFailure (processDirectory env order).1 = true →
      (processDirectory env order).2 = false) := by
  cases hl : env.listing with
  | error e => simp [processDirectory, hl, isFailure]
  | ok files =>
    by_cases h0 : files.length = 0
    · have hfe : files = [] := List.length_eq_zero.mp h0
      subst hfe
      simp [processDirectory, hl, isFailure]
    · have hne : files ≠ [] := fun h => h0 (by simp [h])
      by_cases hm : env.mkdirRootOk
      · simp [processDirectory, hl, h0, hm, isFailure, hne]
      · simp [processDirectory, hl, h0, hm, isFailure]

/-- Witness for C3: zero eligible files is a hard error and no output
directory is created. -/
theorem processDirectory_error_conditions_witness :
    isFailure (processDirectory dirEnvZero []).1 = true ∧
    (processDirectory dirEnvZero []).2 = false :=
  ⟨rfl, (processDirectory_error_conditions dirEnvZero []).2 rfl⟩

lemma processFiles_success_add_error (benv : BatchEnv)
    (imageFiles : List String) (order : List JobResult)
    (hperm : order.Perm (jobResultsOf benv imageFiles)) :
    (processFiles imageFiles order).successCount
      + (processFiles imageFiles order).errorCount
      = (enqueuedFiles benv imageFiles).length := by
  rw [processFiles_successCount, processFiles_errorCount]
  have h2 : order.countP (fun jr => jr.err.isSome)
      = order.countP (fun jr => decide (¬ jr.err.isNone = true)) :=
    List.countP_congr (fun jr _ => by cases jjr : jr.err <;> simp [jjr])
  rw [h2, ← List.length_eq_countP_add_countP, hperm.length_eq,
    jobResultsOf, List.length_map]

/-- Claim C4: once directory-level setup passes, `ProcessDirectory` returns a
`BatchResult` with no top-level error — whatever the per-file outcomes, in
particular when every file fails; each enqueued file is processed exactly
once (one job result bears its path) regardless of other files' failures,
and a file whose processing fails contributes exactly one entry to
`Errors` (and none when it succeeds). -/
theorem processFiles_failure_isolation (env : DirEnv)
    (imageFiles : List String) (order : List JobResult)
    (hl : env.listing = .ok imageFiles) (hne : imageFiles ≠ [])
    (hmk : env.mkdirRootOk = true)
    (hperm : order.Perm (jobResultsOf env.fileEnv imageFiles))
    (hnd : imageFiles.Nodup) :
    (processDirectory env order).1 = .ok (processFiles imageFiles order) ∧
    ∀ f ∈ imageFiles, env.fileEnv.subMkdirOk f = true →
      order.countP (fun jr => decide (jr.inputPath = f)) = 1 ∧
      (processFiles imageFiles order).errors.countP
          (fun be => decide (be.filePath = f))
        = if (env.fileEnv.processResult f).isSome then 1 else 0 := by
  have hok : (processDirectory env order).1
      = .ok (processFiles imageFiles order) :=
    (processDirectory_ok_iff env order _).mpr ⟨imageFiles, hl, hne, hmk, rfl⟩
  refine ⟨hok, fun f hf henq => ?_⟩
  have hnd2 : (enqueuedFiles env.fileEnv imageFiles).Nodup := hnd.filter _
  have hf2 : f ∈ enqueuedFiles env.fileEnv imageFiles :=
    List.mem_filter.mpr ⟨hf, henq⟩
  constructor
  · rw [hperm.countP_eq, jobResultsOf, List.countP_map]
    exact countP_decide_eq_one_of_nodup hnd2 hf2
  · rw [processFiles_errors, List.countP_map, List.countP_filter,
      hperm.countP_eq, jobResultsOf, List.countP_map]
    exact countP_decide_and_of_nodup hnd2 hf2
      (fun g => (env.fileEnv.processResult g).isSome)

/-- Witness for C4: both files fail, yet `ProcessDirectory` returns a
result with no top-level error, and each file contributes exactly one
`Errors` entry. -/
theorem processFiles_failure_isolation_witness :
    (processDirectory dirEnvAllFail orderAllFail).1
      = .ok (processFiles ["x.jpg", "y.jpg"] orderAllFail) ∧
    orderAllFail.countP (fun jr => decide (jr.inputPath = "x.jpg")) = 1 ∧
    (processFiles ["x.jpg", "y.jpg"] orderAllFail).errors.countP
        (fun be => decide (be.filePath = "x.jpg")) = 1 := by
  have h := processFiles_failure_isolation dirEnvAllFail ["x.jpg", "y.jpg"]
    orderAllFail rfl (by decide) rfl (List.Perm.refl _) (by decide)
  have h2 := h.2 "x.jpg" (by decide) rfl
  refine ⟨h.1, h2.1, ?_⟩
  rw [h2.2]
  rfl

/-- Claim C10: every `BatchResult` returned by `ProcessDirectory` satisfies:
`ErrorCount` is the length of `Errors`; each `Errors` entry carries the
failed file's input path (an enqueued file, with the entry's error being
that file's processing outcome) and a non-nil error; and
`SuccessCount + ErrorCount` is the number of jobs actually enqueued, which
together with the number of files skipped for failed subdirectory creation
makes up `TotalCount`. -/
theorem batchResult_invariants (env : DirEnv) (imageFiles : List String)
    (order : List JobResult) (r : BatchResult)
    (hl : env.listing = .ok imageFiles)
    (hperm : order.Perm (jobResultsOf env.fileEnv imageFiles))
    (hr : (processDirectory env order).1 = .ok r) :
    r.errorCount = r.errors.length ∧
    (∀ be ∈ r.errors, be.error ≠ none ∧
      be.filePath ∈ enqueuedFiles env.fileEnv imageFiles ∧
      be.error = env.fileEnv.processResult be.filePath) ∧
    r.successCount + r.errorCount
      = (enqueuedFiles env.fileEnv imageFiles).length ∧
    (enqueuedFiles env.fileEnv imageFiles).length
      + imageFiles.countP (fun f => decide (env.fileEnv.subMkdirOk f = false))
      = r.totalCount := by
  obtain ⟨files, hfl, -, -, hrr⟩ := (processDirectory_ok_iff env order r).mp hr
  rw [hl] at hfl
  cases Except.ok.inj hfl
  subst hrr
  refine ⟨?_, ?_, processFiles_success_add_error env.fileEnv _ _ hperm, ?_⟩
  · rw [processFiles_errorCount, processFiles_errors, List.length_map,
      ← List.countP_eq_length_filter]
  · intro be hbe
    rw [processFiles_errors, List.mem_map] at hbe
    obtain ⟨jr, hjr, rfl⟩ := hbe
    rw [List.mem_filter] at hjr
    obtain ⟨hjro, hjrs⟩ := hjr
    have hjrc : jr ∈ jobResultsOf env.fileEnv imageFiles :=
      hperm.mem_iff.mp hjro
    rw [jobResultsOf, List.mem_map] at hjrc
    obtain ⟨g, hg, rfl⟩ := hjrc
    exact ⟨by simpa [runJob] using Option.ne_none_iff_isSome.mpr hjrs,
      hg, rfl⟩
  · rw [processFiles_totalCount, enqueuedFiles,
      ← List.countP_eq_length_filter]
    have h2 : imageFiles.countP
        (fun f => decide (env.fileEnv.subMkdirOk f = false))
        = imageFiles.countP
            (fun f => decide (¬ env.fileEnv.subMkdirOk f = true)) :=
      List.countP_congr
        (fun f _ => by cases hb : env.fileEnv.subMkdirOk f <;> simp [hb])
    rw [h2, ← List.length_eq_countP_add_countP]

/-- Witness for C10: the invariants instantiated on the demo batch
(3 successes, 1 decode failure). -/
theorem batchResult_invariants_witness :
    (processFiles filesDemo orderDemo).errorCount
      = (processFiles filesDemo orderDemo).errors.length ∧
    (processFiles filesDemo orderDemo).successCount
      + (processFiles filesDemo orderDemo).errorCount
      = (enqueuedFiles batchEnvDemo filesDemo).length :=
  ⟨(batchResult_invariants dirEnvDemo filesDemo orderDemo
      (processFiles filesDemo orderDemo) rfl (List.Perm.refl _) rfl).1,
   (batchResult_invariants dirEnvDemo filesDemo orderDemo
      (processFiles filesDemo orderDemo) rfl (List.Perm.refl _) rfl).2.2.1⟩

/-! ## Claim C5 -/
/-- Claim C5: `ValidateConfig` accepts a config iff it is non-nil, the
company name is non-empty after trimming white space, `fontSize ∈ [10,200]`,
`textSpacing, lineSpacing ∈ [5,200]`, `quality ∈ [1,100]` and the font is
non-nil; in particular it rejects `fontSize = 5`, `quality = 0`,
`quality = 101` and an empty company name. -/
theorem validateConfig_correct (oc : Option Config) :
    (validateConfig oc = .ok () ↔
      ∃ c, oc = some c ∧
        goTrimSpace c.companyName ≠ "" ∧
        10 ≤ c.fontSize ∧ c.fontSize ≤ 200 ∧
        5 ≤ c.textSpacing ∧ c.textSpacing ≤ 200 ∧
        5 ≤ c.lineSpacing ∧ c.lineSpacing ≤ 200 ∧
        1 ≤ c.quality ∧ c.quality ≤ 100 ∧ c.font ≠ none) ∧
    (∀ c, oc = some c →
      (c.fontSize = 5 ∨ c.quality = 0 ∨ c.quality = 101 ∨
        c.companyName = "") →
      validateConfig oc ≠ .ok ()) := by
  refine ⟨validateConfig_ok_iff_valid oc, ?_⟩
  rintro c rfl hbad hok
  obtain ⟨c', hc', hv⟩ := (validateConfig_ok_iff_valid (some c)).mp hok
  cases Option.some.inj hc'
  obtain ⟨h1, h2, h3, h4, h5, h6, h7, h8, h9, h10⟩ := hv
  rcases hbad with hb | hb | hb | hb
  · rw [hb] at h2
    norm_num at h2
  · rw [hb] at h8
    norm_num at h8
  · rw [hb] at h9
    norm_num at h9
  · apply h1
    rw [hb]
    rfl

/-- Witness for C5: the demo config is accepted. -/
theorem validateConfig_correct_witness :
    validateConfig (some cfgDemo) = .ok () :=
  (validateConfig_correct (some cfgDemo)).1.mpr
    ⟨cfgDemo, rfl, by decide, by decide, by decide, by decide, by decide,
      by decide, by decide, by decide, by decide, by decide⟩

lemma fileAt_cons {e : FsEntry} {es : List FsEntry} {dirs : List String}
    {n : String} (h : FileAt es dirs n) : FileAt (e :: es) dirs n := by
  cases h with
  | here h => exact .here (List.mem_cons_of_mem _ h)
  | there h hsub => exact .there (List.mem_cons_of_mem _ h) hsub

lemma isSupportedExt_iff (n : String) :
    isSupportedExt n = true ↔
      (goToLower (goExt n) = ".jpg" ∨ goToLower (goExt n) = ".jpeg" ∨
        goToLower (goExt n) = ".png") := by
  simp [isSupportedExt, Bool.or_eq_true, decide_eq_true_eq, or_assoc]

/-! ## Claim C8 -/
/-- Claim C8: the walk collects exactly the files whose lower-cased extension
is `.jpg`, `.jpeg` or `.png`; in non-recursive mode only files directly in
the root directory (`dirs = []`, every subdirectory is skipped), in
recursive mode files at any depth. -/
theorem findImageFiles_correct (recursive : Bool) (base : String)
    (es : List FsEntry) (p : String) :
    p ∈ findImagesIn recursive base es ↔
      ∃ dirs n, FileAt es dirs n ∧
        (goToLower (goExt n) = ".jpg" ∨ goToLower (goExt n) = ".jpeg" ∨
          goToLower (goExt n) = ".png") ∧
        p = joinPath base dirs n ∧ (recursive = false → dirs = []) := by
  induction base, es using findImagesIn.induct recursive with
  | case1 base =>
    simp only [findImagesIn, List.not_mem_nil, false_iff]
    rintro ⟨dirs, n, hfa, -, -, -⟩
    cases hfa with
    | here h => exact absurd h (List.not_mem_nil _)
    | there h _ => exact absurd h (List.not_mem_nil _)
  | case2 base n rest ih =>
    simp only [findImagesIn, List.mem_append]
    constructor
    · rintro (h | h)
      · by_cases hs : isSupportedExt n
        · rw [if_pos hs] at h
          obtain rfl := List.mem_singleton.mp h
          exact ⟨[], n, .here (List.mem_cons_self _ _),
            (isSupportedExt_iff n).mp hs, rfl, fun _ => rfl⟩
        · rw [if_neg hs] at h
          cases h
      · obtain ⟨dirs, n', hfa, hs, hp, hrec⟩ := ih.mp h
        exact ⟨dirs, n', fileAt_cons hfa, hs, hp, hrec⟩
    · rintro ⟨dirs, n', hfa, hs, rfl, hrec⟩
      cases hfa with
      | here hmem =>
        rcases List.mem_cons.mp hmem with heq | hmem'
        · injection heq with h1
          subst h1
          left
          rw [if_pos ((isSupportedExt_iff n').mpr hs)]
          exact List.mem_singleton.mpr rfl
        · right
          exact ih.mpr ⟨[], n', .here hmem', hs, rfl, fun _ => rfl⟩
      | there hmem hsub =>
        rcases List.mem_cons.mp hmem with heq | hmem'
        · exact absurd heq (by simp)
        · right
          exact ih.mpr ⟨_ :: _, n', .there hmem' hsub, hs, rfl, hrec⟩
  | case3 base dn sub rest ih1 ih2 =>
    simp only [findImagesIn, List.mem_append]
    constructor
    · rintro (h | h)
      · by_cases hR : recursive
        · rw [if_pos hR] at h
          obtain ⟨dirs, n', hfa, hs, hp, -⟩ := ih1.mp h
          exact ⟨dn :: dirs, n', .there (List.mem_cons_self _ _) hfa, hs,
            hp, fun hf => absurd hf (by simp [hR])⟩
        · rw [if_neg hR] at h
          cases h
      · obtain ⟨dirs, n', hfa, hs, hp, hr⟩ := ih2.mp h
        exact ⟨dirs, n', fileAt_cons hfa, hs, hp, hr⟩
    · rintro ⟨dirs, n', hfa, hs, rfl, hrec⟩
      cases hfa with
      | here hmem =>
        rcases List.mem_cons.mp hmem with heq | hmem'
        · exact absurd heq (by simp)
        · right
          exact ih2.mpr ⟨[], n', .here hmem', hs, rfl, fun _ => rfl⟩
      | there hmem hsub =>
        rcases List.mem_cons.mp hmem with heq | hmem'
        · injection heq with h1 h2
          subst h1
          subst h2
          have hR : recursive = true := by
            cases hrecB : recursive
            · exact absurd (hrec hrecB) (by simp)
            · rfl
          left
          rw [if_pos hR]
          exact ih1.mpr ⟨_, n', hsub, hs, rfl,
            fun hf => absurd hf (by simp [hR])⟩
        · right
          exact ih2.mpr ⟨_ :: _, n', .there hmem' hsub, hs, rfl, hrec⟩

/-- Witness for C8: in recursive mode a nested `Photo.JPG` (upper-case
extension) is found at its joined path; in non-recursive mode the same tree
yields nothing from the subdirectory. -/
theorem findImageFiles_correct_witness :
    "root/sub/Photo.JPG" ∈ findImagesIn true "root"
      [FsEntry.dir "sub" [FsEntry.file "Photo.JPG"],
        FsEntry.file "notes.txt"] ∧
    "root/sub/Photo.JPG" ∉ findImagesIn false "root"
      [FsEntry.dir "sub" [FsEntry.file "Photo.JPG"],
        FsEntry.file "notes.txt"] := by
  constructor
  · exact (findImageFiles_correct true "root" _ _).mpr
      ⟨["sub"], "Photo.JPG",
        .there (List.mem_cons_self _ _) (.here (List.mem_cons_self _ _)),
        by decide, rfl, fun hf => absurd hf (by decide)⟩
  · intro h
    obtain ⟨dirs, n', hfa, hs, hp, hrec⟩ :=
      (findImageFiles_correct false "root" _ _).mp h
    rw [hrec rfl] at hfa hp
    cases hfa with
    | here hmem =>
      rcases List.mem_cons.mp hmem with heq | hmem'
      · exact absurd heq (by simp)
      · rcases List.mem_cons.mp hmem' with heq | hmem''
        · injection heq with h1
          subst h1
          exact absurd hp (by decide)
        · exact absurd hmem'' (List.not_mem_nil _)
